import Mathlib

/-!
Verification of the logo-extraction script (`src/index.js`, class `SimpleLogo`)
against its natural-language specification.

The JavaScript code is shallowly embedded: pure string helpers become Lean
functions on `String`, the external collaborators (HTTP client, HTML parser,
image codec, file system) become oracle inputs threaded through an `Env`
record, and JavaScript exceptions become `Except` values.  JavaScript strings
are modelled as Lean `String` (lists of characters); the ASCII-only
`toLowerCase`, `includes`, `startsWith` operations are embedded below.
-/

set_option maxHeartbeats 1000000

namespace SimpleLogo

/-- Embedding of JavaScript `String.prototype.toLowerCase` (ASCII case fold,
which is all the script relies on). -/
def jsToLower (s : String) : String := ⟨s.data.map Char.toLower⟩

/-- `listIncludes sub hay` is true when `sub` occurs as a contiguous
subsequence of `hay`. -/
def listIncludes (sub : List Char) : List Char → Bool
  | [] => sub.isPrefixOf []
  | c :: rest => sub.isPrefixOf (c :: rest) || listIncludes sub rest

/-- Embedding of JavaScript `s.includes(sub)`. -/
def jsIncludes (s sub : String) : Bool := listIncludes sub.data s.data

/-- Embedding of JavaScript `s.startsWith(p)`. -/
def jsStartsWith (s p : String) : Bool := p.data.isPrefixOf s.data

/-- The fixed extension list of `isValidImageUrl` (src/index.js:335-345). -/
def imageExtensions : List String :=
  [".png", ".jpg", ".jpeg", ".svg", ".gif", ".webp", ".ico", ".bmp", ".tiff"]

/-- Embedding of `SimpleLogo.isValidImageUrl` (src/index.js:334-351).
Note the asymmetry in the source: the extension tests run on
`url.toLowerCase()`, but the `"logo"` / `"icon"` substring tests run on the
raw `url`. -/
def isValidImageUrl (url : String) : Bool :=
  imageExtensions.any (fun ext => jsIncludes (jsToLower url) ext)
    || jsIncludes url "logo" || jsIncludes url "icon"

/-- Claim-side validity predicate for C1, following the spec's words: the URL
compared case-insensitively contains an image extension, or (still
case-insensitively) the substring "logo" or "icon". -/
def validPerSpecCI (url : String) : Prop :=
  (∃ ext ∈ imageExtensions, jsIncludes (jsToLower url) ext = true)
    ∨ jsIncludes (jsToLower url) "logo" = true
    ∨ jsIncludes (jsToLower url) "icon" = true

/-- Amended validity predicate: extension tests are case-insensitive, while
the "logo"/"icon" substring tests are case-sensitive on the raw URL. -/
def validAmended (url : String) : Prop :=
  (∃ ext ∈ imageExtensions, jsIncludes (jsToLower url) ext = true)
    ∨ jsIncludes url "logo" = true
    ∨ jsIncludes url "icon" = true

/-- Embedding of `SimpleLogo.normalizeUrl` (src/index.js:320-332).
`none` models JavaScript `null`/`undefined`; the `u = ""` test models the
falsiness of the empty string in `if (!url)`. -/
def normalizeUrl (url : Option String) (baseUrl : String) : Option String :=
  match url with
  | none => none
  | some u =>
    if u = "" then none
    else if jsStartsWith u "//" then some ("https:" ++ u)
    else if jsStartsWith u "/" then some (baseUrl ++ u)
    else if jsStartsWith u "http" then some u
    else some (baseUrl ++ "/" ++ u)

/-- The own properties of the `typeMap` object literal of
`detectImageFormat` (src/index.js:356-367).  A property read of the
JavaScript object consults these first and then `Object.prototype`; see
`jsObjectGet` for the full lookup. -/
def typeMap : List (String × String) :=
  [("image/svg+xml", "svg"),
   ("image/png", "png"),
   ("image/jpeg", "jpg"),
   ("image/jpg", "jpg"),
   ("image/gif", "gif"),
   ("image/webp", "webp"),
   ("image/x-icon", "ico"),
   ("image/vnd.microsoft.icon", "ico"),
   ("image/bmp", "bmp"),
   ("image/tiff", "tiff")]

/-- The URL-based fallback chain of `detectImageFormat` (src/index.js:374-387). -/
def detectFromUrl (url : String) : String :=
  if jsIncludes (jsToLower url) ".svg" then "svg"
  else if jsIncludes (jsToLower url) ".png" then "png"
  else if jsIncludes (jsToLower url) ".jpg" || jsIncludes (jsToLower url) ".jpeg" then "jpg"
  else if jsIncludes (jsToLower url) ".gif" then "gif"
  else if jsIncludes (jsToLower url) ".webp" then "webp"
  else if jsIncludes (jsToLower url) ".ico" then "ico"
  else if jsIncludes (jsToLower url) ".bmp" then "bmp"
  else if jsIncludes (jsToLower url) ".tiff" || jsIncludes (jsToLower url) ".tif" then "tiff"
  else "png"

/-- Embedding of `SimpleLogo.detectImageFormat` (src/index.js:353-388)
restricted to the own keys of the `typeMap` object literal.
`contentType = none` models an absent header, and the `ct = ""` test models
the falsiness of an empty header in `if (contentType)`.  The full property
lookup of the JavaScript object, `Object.prototype` included, is
`detectImageFormatJs` below; the two agree whenever the lowercased
content-type is not an inherited property name. -/
def detectImageFormat (url : String) (contentType : Option String) : String :=
  match contentType with
  | some ct =>
    if ct = "" then detectFromUrl url
    else
      match typeMap.lookup (jsToLower ct) with
      | some f => f
      | none => detectFromUrl url
  | none => detectFromUrl url

/-- Spec-side format resolution for C3, written from the spec's words:
(1) case-insensitive content-type lookup in the fixed map, (2) substring
search on the lowercased URL in the fixed order svg, png, jpg/jpeg, gif,
webp, ico, bmp, tiff/tif, (3) default png. -/
def specFormatOrder : List (List String × String) :=
  [([".svg"], "svg"),
   ([".png"], "png"),
   ([".jpg", ".jpeg"], "jpg"),
   ([".gif"], "gif"),
   ([".webp"], "webp"),
   ([".ico"], "ico"),
   ([".bmp"], "bmp"),
   ([".tiff", ".tif"], "tiff")]

/-- Spec-side counterpart of `detectImageFormat` for the C3 refinement. -/
def detectPerSpec (url : String) (contentType : Option String) : String :=
  match contentType.bind (fun ct => typeMap.lookup (jsToLower ct)) with
  | some f => f
  | none =>
    match specFormatOrder.findSome?
        (fun p => if p.1.any (fun e => jsIncludes (jsToLower url) e) then some p.2 else none) with
    | some f => f
    | none => "png"

/-- Embedding of `SimpleLogo.shouldOptimize` (src/index.js:390-394). -/
def shouldOptimize (format : String) : Bool :=
  (["png", "jpg", "jpeg", "webp"] : List String).contains format

/-- The own property names of `Object.prototype` (ECMAScript).  Every one of
them holds a truthy value — methods, and the `__proto__` accessor yielding
`Object.prototype` itself — so a property read of a plain object literal
that misses the own keys but hits one of these returns a truthy
non-string. -/
def objectProtoProps : List String :=
  ["constructor", "hasOwnProperty", "isPrototypeOf", "propertyIsEnumerable",
   "toLocaleString", "toString", "valueOf", "__proto__",
   "__defineGetter__", "__defineSetter__", "__lookupGetter__", "__lookupSetter__"]

/-- The value a JavaScript property read `obj[key]` yields on a plain object
literal: an own (string-valued) property, a truthy value inherited from
`Object.prototype`, or the falsy `undefined`. -/
inductive JsPropValue where
  | str (s : String) : JsPropValue
  | protoFn (name : String) : JsPropValue
  | undef : JsPropValue
deriving DecidableEq, Repr

/-- Embedding of the property read `own[key]`: own keys first, then
`Object.prototype`. -/
def jsObjectGet (own : List (String × String)) (key : String) : JsPropValue :=
  match own.lookup key with
  | some v => JsPropValue.str v
  | none => if key ∈ objectProtoProps then JsPropValue.protoFn key else JsPropValue.undef

/-- What `detectImageFormat` can return in JavaScript: a format string, or —
when the content-type lookup hits an inherited `Object.prototype`
property — that inherited non-string value. -/
inductive DetectResult where
  | format (s : String) : DetectResult
  | protoValue (name : String) : DetectResult
deriving DecidableEq, Repr

/-- Embedding of `SimpleLogo.detectImageFormat` (src/index.js:353-388) with
the full JavaScript property lookup: `typeMap[contentType.toLowerCase()]`
consults the own keys and then `Object.prototype`, and the source's
truthiness test `if (typeMap[...])` passes for every inherited hit, which
is then returned as-is.  Since the key is lowercased first, the reachable
inherited names are exactly "constructor" and "__proto__" (all other
`Object.prototype` names contain an uppercase letter). -/
def detectImageFormatJs (url : String) (contentType : Option String) : DetectResult :=
  match contentType with
  | some ct =>
    if ct = "" then DetectResult.format (detectFromUrl url)
    else
      match jsObjectGet typeMap (jsToLower ct) with
      | JsPropValue.str f => DetectResult.format f
      | JsPropValue.protoFn name => DetectResult.protoValue name
      | JsPropValue.undef => DetectResult.format (detectFromUrl url)
  | none => DetectResult.format (detectFromUrl url)

theorem detectFromUrl_eq_spec (url : String) :
    detectFromUrl url =
      match specFormatOrder.findSome?
          (fun p => if p.1.any (fun e => jsIncludes (jsToLower url) e) then some p.2 else none) with
      | some f => f
      | none => "png" := by
  unfold detectFromUrl specFormatOrder
  simp only [List.findSome?_cons, List.any_cons, List.any_nil, Bool.or_false]
  split_ifs <;> simp_all

theorem lookup_snd_mem {α β : Type} [BEq α] :
    ∀ (l : List (α × β)) (k : α) (v : β), l.lookup k = some v → v ∈ l.map Prod.snd := by
  intro l
  induction l with
  | nil => intro k v h; simp [List.lookup] at h
  | cons hd tl ih =>
    intro k v h
    rw [List.lookup] at h
    by_cases hk : (k == hd.1) = true
    · simp [hk] at h
      simp [h]
    · simp [Bool.not_eq_true] at hk
      rw [hk] at h
      simpa using Or.inr (ih k v h)

/-- A discovered candidate, as pushed by `addCandidate` (src/index.js:39). -/
structure Candidate where
  url : String
  priority : Nat
  source : String
  sizes : Option String := none
deriving DecidableEq, Repr

/-- One call to `addCandidate(src, priority, source, extra)`; `src = none`
models an `undefined` attribute value. -/
structure Insertion where
  src : Option String
  priority : Nat
  source : String
  sizes : Option String := none
deriving DecidableEq, Repr

/-- The closure state of the `addCandidate` accumulator (src/index.js:28-42):
the `seen` set and the `candidates` array. -/
structure CollectState where
  seen : List String
  cands : List Candidate
deriving DecidableEq, Repr

/-- Embedding of one `addCandidate` call (src/index.js:31-41). -/
def addCandidate (baseUrl : String) (st : CollectState) (ins : Insertion) : CollectState :=
  match ins.src with
  | none => st
  | some s =>
    if s = "" then st
    else
      match normalizeUrl (some s) baseUrl with
      | none => st
      | some normalized =>
        if isValidImageUrl normalized then
          if normalized ∈ st.seen then st
          else
            { seen := normalized :: st.seen,
              cands := st.cands ++
                [{ url := normalized, priority := ins.priority,
                   source := ins.source, sizes := ins.sizes }] }
        else st

/-- The candidate an insertion would create at normalized URL `n`. -/
def mkCand (ins : Insertion) (n : String) : Candidate :=
  { url := n, priority := ins.priority, source := ins.source, sizes := ins.sizes }

/-- The normalized URL an insertion contributes, when it survives the
undefined/empty/normalization/validity guards of `addCandidate`. -/
def insertionNorm (baseUrl : String) (ins : Insertion) : Option String :=
  match ins.src with
  | none => none
  | some s =>
    if s = "" then none
    else
      match normalizeUrl (some s) baseUrl with
      | none => none
      | some normalized =>
        if isValidImageUrl normalized then some normalized else none

theorem addCandidate_eq (baseUrl : String) (st : CollectState) (ins : Insertion) :
    addCandidate baseUrl st ins =
      match insertionNorm baseUrl ins with
      | none => st
      | some n =>
        if n ∈ st.seen then st
        else { seen := n :: st.seen, cands := st.cands ++ [mkCand ins n] } := by
  unfold addCandidate insertionNorm mkCand
  cases hsrc : ins.src with
  | none => rfl
  | some s =>
    by_cases hs : s = ""
    · simp [hs]
    · simp only [if_neg hs]
      cases hn : normalizeUrl (some s) baseUrl with
      | none => rfl
      | some n =>
        by_cases hv : isValidImageUrl n
        · simp [hv]
        · simp [hv]

/-- Running a list of insertions through the accumulator. -/
def processList (baseUrl : String) (st : CollectState) (inss : List Insertion) : CollectState :=
  inss.foldl (addCandidate baseUrl) st

/-- The whole collection run, from the empty accumulator (the `addCandidate`
closure is created fresh per extraction run). -/
def collectList (baseUrl : String) (inss : List Insertion) : CollectState :=
  processList baseUrl ⟨[], []⟩ inss

/-- The accumulator invariant: `seen` holds exactly the URLs of `cands`. -/
def CollectInv (st : CollectState) : Prop :=
  ∀ u, u ∈ st.seen ↔ u ∈ st.cands.map Candidate.url

theorem insertionNorm_valid {baseUrl : String} {ins : Insertion} {n : String}
    (h : insertionNorm baseUrl ins = some n) : isValidImageUrl n = true := by
  unfold insertionNorm at h
  cases hsrc : ins.src with
  | none => rw [hsrc] at h; exact absurd h (by simp)
  | some s =>
    rw [hsrc] at h
    by_cases hs : s = ""
    · simp [hs] at h
    · simp only [if_neg hs] at h
      cases hn : normalizeUrl (some s) baseUrl with
      | none => rw [hn] at h; exact absurd h (by simp)
      | some m =>
        rw [hn] at h
        by_cases hv : isValidImageUrl m
        · simp [hv] at h; rw [← h]; exact hv
        · simp [hv] at h

theorem processList_inv (baseUrl : String) (inss : List Insertion) :
    ∀ st : CollectState, CollectInv st → CollectInv (processList baseUrl st inss) := by
  induction inss with
  | nil => intro st h; exact h
  | cons i rest ih =>
    intro st h
    refine ih (addCandidate baseUrl st i) ?_
    rw [addCandidate_eq]
    cases hn : insertionNorm baseUrl i with
    | none => exact h
    | some n =>
      by_cases hseen : n ∈ st.seen
      · simp only [hseen, if_pos]; exact h
      · simp only [hseen, if_neg, ite_false]
        intro u
        simp only [List.mem_cons, List.map_append, List.mem_append, h u]
        simp [mkCand, or_comm]

theorem processList_nodup (baseUrl : String) (inss : List Insertion) :
    ∀ st : CollectState, CollectInv st → (st.cands.map Candidate.url).Nodup →
      ((processList baseUrl st inss).cands.map Candidate.url).Nodup := by
  induction inss with
  | nil => intro st _ h; exact h
  | cons i rest ih =>
    intro st hinv hnd
    have hinv' := by
      refine processList_inv baseUrl [i] st hinv
    refine ih (addCandidate baseUrl st i) (hinv' ) ?_
    rw [addCandidate_eq]
    cases hn : insertionNorm baseUrl i with
    | none => exact hnd
    | some n =>
      by_cases hseen : n ∈ st.seen
      · simp only [hseen, if_pos]; exact hnd
      · simp only [hseen, if_neg, ite_false]
        simp only [List.map_append, List.map_cons, List.map_nil]
        rw [List.nodup_append]
        refine ⟨hnd, by simp, ?_⟩
        intro a ha hb
        simp [mkCand] at hb
        rw [hb] at ha
        exact hseen ((hinv n).mpr ha)

theorem processList_valid (baseUrl : String) (inss : List Insertion) :
    ∀ st : CollectState, (∀ c ∈ st.cands, isValidImageUrl c.url = true) →
      ∀ c ∈ (processList baseUrl st inss).cands, isValidImageUrl c.url = true := by
  induction inss with
  | nil => intro st h; exact h
  | cons i rest ih =>
    intro st hall
    refine ih (addCandidate baseUrl st i) ?_
    rw [addCandidate_eq]
    cases hn : insertionNorm baseUrl i with
    | none => exact hall
    | some n =>
      by_cases hseen : n ∈ st.seen
      · simp only [hseen, if_pos]; exact hall
      · simp only [hseen, if_neg, ite_false]
        intro c hc
        simp only [List.mem_append, List.mem_singleton] at hc
        rcases hc with hc | hc
        · exact hall c hc
        · rw [hc]
          exact insertionNorm_valid hn

theorem processList_find? (baseUrl : String) (u : String) (inss : List Insertion) :
    ∀ st : CollectState, CollectInv st →
      (processList baseUrl st inss).cands.find? (fun c => c.url == u) =
        ((st.cands.find? (fun c => c.url == u)).or
          ((inss.find? (fun i => insertionNorm baseUrl i == some u)).map
            (fun i => mkCand i u))) := by
  induction inss with
  | nil =>
    intro st _
    simp [processList]
  | cons i rest ih =>
    intro st hinv
    have hstep : processList baseUrl st (i :: rest)
        = processList baseUrl (addCandidate baseUrl st i) rest := rfl
    rw [hstep, ih (addCandidate baseUrl st i) (processList_inv baseUrl [i] st hinv)]
    rw [addCandidate_eq]
    cases hn : insertionNorm baseUrl i with
    | none =>
      have hni : (insertionNorm baseUrl i == some u) = false := by
        rw [hn]; rfl
      simp [hni]
    | some n =>
      by_cases hnu : n = u
      · subst hnu
        have hni : (insertionNorm baseUrl i == some n) = true := by
          rw [hn]; simp
        by_cases hseen : n ∈ st.seen
        · simp only [hseen, if_pos]
          have : ∃ c, c ∈ st.cands ∧ (c.url == n) = true := by
            rcases List.mem_map.mp ((hinv n).mp hseen) with ⟨c, hc, hcu⟩
            exact ⟨c, hc, by simp [hcu]⟩
          rcases List.find?_isSome.mpr this with hsome
          cases hf : st.cands.find? (fun c => c.url == n) with
          | none => rw [hf] at hsome; simp at hsome
          | some c => simp [hni]
        · simp only [hseen, if_neg, ite_false]
          have hf : st.cands.find? (fun c => c.url == n) = none := by
            rw [List.find?_eq_none]
            intro c hc hcu
            refine hseen ((hinv n).mpr ?_)
            simp only [beq_iff_eq] at hcu
            exact List.mem_map.mpr ⟨c, hc, hcu⟩
          simp [List.find?_append, hf, hni, mkCand]
      · have hni : (insertionNorm baseUrl i == some u) = false := by
          rw [hn]
          simp only [beq_eq_false_iff_ne, ne_eq, Option.some.injEq]
          exact hnu
        by_cases hseen : n ∈ st.seen
        · simp [hseen, hni]
        · simp only [hseen, if_neg, ite_false]
          have hlast : (st.cands ++ [mkCand i n]).find? (fun c => c.url == u)
              = st.cands.find? (fun c => c.url == u) := by
            rw [List.find?_append]
            have : ([mkCand i n].find? (fun c => c.url == u)) = none := by
              simp [mkCand, hnu]
            rw [this]
            cases st.cands.find? (fun c => c.url == u) <;> rfl
          simp only [hlast]
          rw [List.find?_cons_of_neg _ (by simp [hni])]

/-- An HTTP response as seen by the script: only the content-type header is
consumed (response bytes are opaque to the model). -/
structure Resp where
  contentType : Option String
deriving DecidableEq, Repr

/-- A manifest icon entry (`icon.src`, `icon.sizes`); `src = none` models a
missing `src` property. -/
structure ManifestIcon where
  src : Option String
  sizes : Option String := none
deriving DecidableEq, Repr

/-- The attribute values the HTML parser (an external collaborator) yields
for each extraction selector, in document order. `linkIcons` pairs an
optional `href` with an optional `sizes`. `manifestIcons = none` models a
failed manifest fetch or a manifest whose `icons` is not an array. -/
structure PageData where
  metaContents : List String
  linkIcons : List (Option String × Option String)
  headerImgs : List String
  logoSectionImgs : List String
  altLogoImgs : List String
  manifestHref : Option String
  manifestIcons : Option (List ManifestIcon)
deriving DecidableEq, Repr

/-- The fixed conventional paths (src/index.js:107-122). -/
def commonPaths : List String :=
  ["/favicon.svg", "/logo.svg", "/favicon.ico", "/favicon.png", "/favicon.jpg",
   "/favicon.jpeg", "/favicon.gif", "/favicon.webp", "/logo.png",
   "/apple-touch-icon.png", "/apple-touch-icon-precomposed.png",
   "/android-chrome-192x192.png", "/android-chrome-512x512.png",
   "/mstile-150x150.png"]

/-- Manifest-derived insertions (src/index.js:85-103): gated on a truthy
`manifestHref`, a successful fetch with an `icons` array, and a truthy
`icon.src` per icon. -/
def manifestInsertions (pd : PageData) : List Insertion :=
  match pd.manifestHref with
  | none => []
  | some h =>
    if h = "" then []
    else
      match pd.manifestIcons with
      | none => []
      | some icons =>
        icons.filterMap fun ic =>
          match ic.src with
          | none => none
          | some s =>
            if s = "" then none
            else some { src := some s, priority := 3, source := "manifest", sizes := ic.sizes }

/-- All `addCandidate` calls made from the parsed page, in source order
(src/index.js:45-104): meta (1), link (2), header (6), logo-section (7),
alt-logo (8), manifest (3). -/
def pageInsertions (pd : PageData) : List Insertion :=
  pd.metaContents.map (fun c => { src := some c, priority := 1, source := "meta" })
    ++ pd.linkIcons.map (fun li => { src := li.1, priority := 2, source := "link", sizes := li.2 })
    ++ pd.headerImgs.map (fun s => { src := some s, priority := 6, source := "header" })
    ++ pd.logoSectionImgs.map (fun s => { src := some s, priority := 7, source := "logo-section" })
    ++ pd.altLogoImgs.map (fun s => { src := some s, priority := 8, source := "img[alt*=logo]" })
    ++ manifestInsertions pd

/-- The oracle environment of one extraction run: the target's page URL,
origin and hostname, the page-fetch outcome (`none` models a failed
`fetchHtmlWithFallback`), and the resource-download oracle.
`download u r` is the outcome of `downloadWithFallback(u, r)` after its
internal referer/protocol fallbacks: `none` models a raised error.  File
system writes are modelled as always succeeding (a write failure is caught
by the same per-candidate handler as a download failure, so it is
represented by `download` returning `none`). -/
structure Env where
  pageUrl : String
  baseUrl : String
  hostname : String
  page : Option PageData
  download : String → String → Option Resp

/-- All `addCandidate` calls of one run, in source order: page-derived
insertions when the HTML was fetched, then the conventional paths
(src/index.js:106-123). -/
def insertionsOf (env : Env) : List Insertion :=
  (match env.page with
   | some pd => pageInsertions pd
   | none => [])
    ++ commonPaths.map (fun p => { src := some (env.baseUrl ++ p), priority := 10, source := "common-path" })

/-- The collected candidate list of one run (src/index.js:126-127). -/
def collectCandidates (env : Env) : List Candidate :=
  (collectList env.baseUrl (insertionsOf env)).cands

/-- The comparator of `foundLogos.sort((a, b) => a.priority - b.priority)`. -/
def candLE (a b : Candidate) : Bool := a.priority ≤ b.priority

/-- The sorted candidate list attempted by the download loop
(src/index.js:130).  `Array.prototype.sort` is stable (ECMAScript 2019), so
it is modelled by a stable merge sort. -/
def foundLogos (env : Env) : List Candidate :=
  (collectCandidates env).mergeSort candLE

theorem candLE_trans (a b c : Candidate) :
    candLE a b → candLE b c → candLE a c := by
  unfold candLE
  intro h1 h2
  simp only [decide_eq_true_eq] at *
  omega

theorem candLE_total (a b : Candidate) : candLE a b || candLE b a := by
  unfold candLE
  rcases Nat.le_total a.priority b.priority with h | h <;> simp [h]

/-- C6: within one extraction run no two collected candidates share a
normalized URL, every collected candidate has a URL passing the validity
rule, and de-duplication is first-seen-wins: for any insertion sequence,
the candidate stored for URL `u` is built from the first insertion whose
(validated) normalized URL is `u`, retaining that insertion's priority and
source even when later insertions produce the same URL. -/
theorem C6_collect_invariants (env : Env) (baseUrl u : String) (inss : List Insertion) :
    ((collectCandidates env).map Candidate.url).Nodup
    ∧ (∀ c ∈ collectCandidates env, isValidImageUrl c.url = true)
    ∧ (collectList baseUrl inss).cands.find? (fun c => c.url == u)
        = (inss.find? (fun i => insertionNorm baseUrl i == some u)).map (fun i => mkCand i u) := by
  have hinv0 : CollectInv ⟨[], []⟩ := by
    intro v
    simp
  refine ⟨?_, ?_, ?_⟩
  · exact processList_nodup env.baseUrl (insertionsOf env) ⟨[], []⟩ hinv0 (by simp)
  · exact processList_valid env.baseUrl (insertionsOf env) ⟨[], []⟩ (by simp)
  · have h := processList_find? baseUrl u inss ⟨[], []⟩ hinv0
    simpa [collectList] using h

/-- C5: the final candidate list is sorted ascending by priority, the sort
is stable (any two candidates appearing in insertion order with equal — or
merely ascending — priorities stay in that order), and in a run whose page
document contributes an og:image meta candidate and a distinct .logo img
candidate, the meta candidate (priority 1) precedes the logo-section
candidate (priority 7). -/
theorem C5_sorted_stable (env : Env) :
    (foundLogos env).Pairwise (fun a b => a.priority ≤ b.priority)
    ∧ (∀ a b : Candidate, [a, b].Sublist (collectCandidates env) →
        a.priority ≤ b.priority → [a, b].Sublist (foundLogos env))
    ∧ (∀ exEnv : Env,
        exEnv.baseUrl = "https://site.com" →
        exEnv.page = some
          { metaContents := ["https://cdn.site.com/og.png"],
            linkIcons := [],
            headerImgs := [],
            logoSectionImgs := ["/assets/logo2.png"],
            altLogoImgs := [],
            manifestHref := none,
            manifestIcons := none } →
        [⟨"https://cdn.site.com/og.png", 1, "meta", none⟩,
         ⟨"https://site.com/assets/logo2.png", 7, "logo-section", none⟩].Sublist
          (foundLogos exEnv)) := by
  refine ⟨?_, ?_, ?_⟩
  · have h := List.sorted_mergeSort candLE_trans candLE_total (collectCandidates env)
    refine List.Pairwise.imp ?_ h
    intro a b hab
    simpa [candLE] using hab
  · intro a b hsub hab
    refine List.pair_sublist_mergeSort candLE_trans candLE_total ?_ hsub
    simpa [candLE] using hab
  · intro exEnv hbase hpage
    have htake : (collectCandidates exEnv).take 2
        = [⟨"https://cdn.site.com/og.png", 1, "meta", none⟩,
           ⟨"https://site.com/assets/logo2.png", 7, "logo-section", none⟩] := by
      unfold collectCandidates insertionsOf
      rw [hbase, hpage]
      decide
    have hsub : ([⟨"https://cdn.site.com/og.png", 1, "meta", none⟩,
        ⟨"https://site.com/assets/logo2.png", 7, "logo-section", none⟩] : List Candidate).Sublist
          (collectCandidates exEnv) := by
      rw [← htake]
      exact List.take_sublist 2 _
    exact List.pair_sublist_mergeSort candLE_trans candLE_total (by decide) hsub

/-- Decimal digits of `n`, most significant first, with explicit fuel so the
definition is structurally recursive (the fuel `n + 1` always suffices). -/
def natDigitsAux : Nat → Nat → List Char
  | 0, _ => []
  | fuel + 1, n =>
    if n < 10 then [Nat.digitChar n]
    else natDigitsAux fuel (n / 10) ++ [Nat.digitChar (n % 10)]

/-- Embedding of JavaScript number-to-string conversion for the nonnegative
integers interpolated by the filename template literal. -/
def natDigits (n : Nat) : List Char := natDigitsAux (n + 1) n

/-- String form of `natDigits`. -/
def jsNatString (n : Nat) : String := ⟨natDigits n⟩

theorem natDigitsAux_irrel (n : Nat) :
    ∀ f g, n < f → n < g → natDigitsAux f n = natDigitsAux g n := by
  induction n using Nat.strong_induction_on with
  | _ n ih =>
    intro f g hf hg
    match f, g with
    | f + 1, g + 1 =>
      simp only [natDigitsAux]
      by_cases h : n < 10
      · simp [h]
      · simp only [h, if_neg, ite_false]
        have hdiv : n / 10 < n := Nat.div_lt_self (by omega) (by omega)
        rw [ih (n / 10) hdiv f g (by omega) (by omega)]

theorem natDigitsAux_succ (fuel n : Nat) :
    natDigitsAux (fuel + 1) n =
      if n < 10 then [Nat.digitChar n]
      else natDigitsAux fuel (n / 10) ++ [Nat.digitChar (n % 10)] := rfl

theorem natDigits_eq (n : Nat) :
    natDigits n =
      if n < 10 then [Nat.digitChar n]
      else natDigits (n / 10) ++ [Nat.digitChar (n % 10)] := by
  unfold natDigits
  rw [natDigitsAux_succ]
  by_cases h : n < 10
  · simp [h]
  · simp only [h, if_neg, ite_false]
    have hdiv : n / 10 < n := Nat.div_lt_self (by omega) (by omega)
    rw [natDigitsAux_irrel (n / 10) n (n / 10 + 1) hdiv (by omega)]

/-- Decimal value of a digit string, used to invert `natDigits`. -/
def digitsVal (l : List Char) : Nat :=
  l.foldl (fun a c => a * 10 + (c.toNat - 48)) 0

theorem digitChar_val {d : Nat} (h : d < 10) : (Nat.digitChar d).toNat - 48 = d := by
  interval_cases d <;> decide

theorem digitsVal_append_digit (l : List Char) (c : Char) :
    digitsVal (l ++ [c]) = digitsVal l * 10 + (c.toNat - 48) := by
  unfold digitsVal
  rw [List.foldl_append]
  rfl

theorem digitsVal_natDigits (n : Nat) : digitsVal (natDigits n) = n := by
  induction n using Nat.strong_induction_on with
  | _ n ih =>
    rw [natDigits_eq]
    by_cases h : n < 10
    · simp only [h, if_pos]
      show 0 * 10 + ((Nat.digitChar n).toNat - 48) = n
      rw [digitChar_val h]
      omega
    · simp only [h, if_neg, ite_false]
      rw [digitsVal_append_digit]
      have hdiv : n / 10 < n := Nat.div_lt_self (by omega) (by omega)
      rw [ih (n / 10) hdiv, digitChar_val (Nat.mod_lt n (by omega))]
      omega

theorem natDigits_inj {n m : Nat} (h : natDigits n = natDigits m) : n = m := by
  have := congrArg digitsVal h
  rwa [digitsVal_natDigits, digitsVal_natDigits] at this

theorem digitChar_ne_dot {d : Nat} (h : d < 10) : Nat.digitChar d ≠ '.' := by
  interval_cases d <;> decide

theorem natDigits_no_dot (n : Nat) : ∀ c ∈ natDigits n, c ≠ '.' := by
  induction n using Nat.strong_induction_on with
  | _ n ih =>
    rw [natDigits_eq]
    by_cases h : n < 10
    · simp only [h, if_pos, List.mem_singleton]
      intro c hc
      rw [hc]
      exact digitChar_ne_dot h
    · simp only [h, if_neg, ite_false]
      intro c hc
      rcases List.mem_append.mp hc with hc | hc
      · have hdiv : n / 10 < n := Nat.div_lt_self (by omega) (by omega)
        exact ih (n / 10) hdiv c hc
      · rw [List.mem_singleton.mp hc]
        exact digitChar_ne_dot (Nat.mod_lt n (by omega))

theorem append_dot_inj :
    ∀ (a b x y : List Char), ('.' ∉ a) → ('.' ∉ b) →
      a ++ '.' :: x = b ++ '.' :: y → a = b ∧ x = y := by
  intro a
  induction a with
  | nil =>
    intro b x y _ hb h
    cases b with
    | nil =>
      simp only [List.nil_append, List.cons.injEq] at h
      exact ⟨rfl, h.2⟩
    | cons c bs =>
      simp only [List.nil_append, List.cons_append, List.cons.injEq] at h
      exact absurd (h.1 ▸ List.mem_cons_self c bs) (by rw [← h.1] at hb; exact fun hmem => hb (h.1 ▸ hmem))
  | cons c as ih =>
    intro b x y ha hb h
    cases b with
    | nil =>
      simp only [List.cons_append, List.nil_append, List.cons.injEq] at h
      exact absurd (List.mem_cons_self c as) (by rw [h.1] at ha ⊢; exact fun _ => ha (List.mem_cons_self '.' as))
    | cons d bs =>
      simp only [List.cons_append, List.cons.injEq] at h
      have hcd := h.1
      have has : '.' ∉ as := fun hm => ha (List.mem_cons_of_mem c hm)
      have hbs : '.' ∉ bs := fun hm => hb (List.mem_cons_of_mem d hm)
      rcases ih bs x y has hbs h.2 with ⟨h1, h2⟩
      exact ⟨by rw [hcd, h1], h2⟩

/-- The filename template of the download loop (src/index.js:146-148). -/
def logoFilename (domain : String) (index : Nat) (format : String) : String :=
  domain ++ "-logo" ++ (if index = 1 then "" else "-" ++ jsNatString index) ++ "." ++ format

theorem logoFilename_inj (d f g : String) {n m : Nat} (hnm : n ≠ m) :
    logoFilename d n f ≠ logoFilename d m g := by
  intro h
  unfold logoFilename at h
  by_cases hn : n = 1 <;> by_cases hm : m = 1
  · exact hnm (hn.trans hm.symm)
  · rw [if_pos hn, if_neg hm] at h
    have hd := congrArg String.data h
    simp only [String.data_append, List.append_assoc] at hd
    have h3 := List.append_cancel_left (List.append_cancel_left hd)
    simp at h3
  · rw [if_neg hn, if_pos hm] at h
    have hd := congrArg String.data h
    simp only [String.data_append, List.append_assoc] at hd
    have h3 := List.append_cancel_left (List.append_cancel_left hd)
    simp at h3
  · rw [if_neg hn, if_neg hm] at h
    have hd := congrArg String.data h
    simp only [String.data_append, List.append_assoc] at hd
    have h3 := List.append_cancel_left (List.append_cancel_left hd)
    simp only [List.singleton_append, List.cons_append, List.nil_append,
      List.cons.injEq, true_and] at h3
    have hjs : ∀ k : Nat, (jsNatString k).data = natDigits k := fun _ => rfl
    rw [hjs n, hjs m] at h3
    have := append_dot_inj (natDigits n) (natDigits m) f.data g.data
      (fun hmem => (natDigits_no_dot n '.' hmem) rfl)
      (fun hmem => (natDigits_no_dot m '.' hmem) rfl)
      (by simpa using h3)
    exact hnm (natDigits_inj this.1)

/-- An entry of the `saved` array (src/index.js:190-197); `localPath` is
`outputDir` joined with `filename` and is not modelled separately. -/
structure Artifact where
  url : String
  filename : String
  format : String
  source : String
  contentType : Option String
deriving DecidableEq, Repr

/-- Embedding of the download loop (src/index.js:132-202): one attempt per
candidate in order, skipping failed candidates, with the saved-file ordinal
`index` starting at 1 and incremented only on success.  `download u` is the
combined outcome of `downloadWithFallback(u, pageUrl)` and the subsequent
write; any raised error (download, codec fallback write, file write) is
caught by the per-candidate handler and modelled as `none`. -/
def runLoop (download : String → Option Resp) (domain : String) :
    List Candidate → Nat → List Artifact
  | [], _ => []
  | c :: cs, index =>
    match download c.url with
    | none => runLoop download domain cs index
    | some resp =>
      { url := c.url,
        filename := logoFilename domain index (detectImageFormat c.url resp.contentType),
        format := detectImageFormat c.url resp.contentType,
        source := c.source,
        contentType := resp.contentType }
        :: runLoop download domain cs (index + 1)

theorem runLoop_get? (download : String → Option Resp) (domain : String) :
    ∀ (cs : List Candidate) (idx n : Nat) (a : Artifact),
      (runLoop download domain cs idx).get? n = some a →
        a.filename = logoFilename domain (idx + n) a.format := by
  intro cs
  induction cs with
  | nil => intro idx n a h; simp [runLoop] at h
  | cons c rest ih =>
    intro idx n a h
    cases hd : download c.url with
    | none =>
      rw [show runLoop download domain (c :: rest) idx = runLoop download domain rest idx by
        simp [runLoop, hd]] at h
      exact ih idx n a h
    | some resp =>
      rw [show runLoop download domain (c :: rest) idx
          = { url := c.url,
              filename := logoFilename domain idx (detectImageFormat c.url resp.contentType),
              format := detectImageFormat c.url resp.contentType,
              source := c.source,
              contentType := resp.contentType }
            :: runLoop download domain rest (idx + 1) by simp [runLoop, hd]] at h
      match n with
      | 0 =>
        simp only [List.get?_cons_zero, Option.some.injEq] at h
        rw [← h]
        simp
      | n + 1 =>
        simp only [List.get?_cons_succ] at h
        have := ih (idx + 1) n a h
        rw [this]
        congr 1
        omega

theorem runLoop_filename_ge (download : String → Option Resp) (domain : String) :
    ∀ (cs : List Candidate) (idx : Nat) (x : Artifact), x ∈ runLoop download domain cs idx →
      ∃ m fmt, idx ≤ m ∧ x.filename = logoFilename domain m fmt := by
  intro cs
  induction cs with
  | nil => intro idx x hx; simp [runLoop] at hx
  | cons c rest ih =>
    intro idx x hx
    cases hd : download c.url with
    | none =>
      rw [show runLoop download domain (c :: rest) idx = runLoop download domain rest idx by
        simp [runLoop, hd]] at hx
      exact ih idx x hx
    | some resp =>
      rw [show runLoop download domain (c :: rest) idx
          = { url := c.url,
              filename := logoFilename domain idx (detectImageFormat c.url resp.contentType),
              format := detectImageFormat c.url resp.contentType,
              source := c.source,
              contentType := resp.contentType }
            :: runLoop download domain rest (idx + 1) by simp [runLoop, hd]] at hx
      rcases List.mem_cons.mp hx with hx | hx
      · exact ⟨idx, detectImageFormat c.url resp.contentType, Nat.le_refl idx, by rw [hx]⟩
      · rcases ih (idx + 1) x hx with ⟨m, fmt, hm, hf⟩
        exact ⟨m, fmt, by omega, hf⟩

theorem runLoop_filenames_nodup (download : String → Option Resp) (domain : String) :
    ∀ (cs : List Candidate) (idx : Nat),
      ((runLoop download domain cs idx).map Artifact.filename).Nodup := by
  intro cs
  induction cs with
  | nil => intro idx; simp [runLoop]
  | cons c rest ih =>
    intro idx
    cases hd : download c.url with
    | none =>
      rw [show runLoop download domain (c :: rest) idx = runLoop download domain rest idx by
        simp [runLoop, hd]]
      exact ih idx
    | some resp =>
      rw [show runLoop download domain (c :: rest) idx
          = { url := c.url,
              filename := logoFilename domain idx (detectImageFormat c.url resp.contentType),
              format := detectImageFormat c.url resp.contentType,
              source := c.source,
              contentType := resp.contentType }
            :: runLoop download domain rest (idx + 1) by simp [runLoop, hd]]
      simp only [List.map_cons, List.nodup_cons]
      refine ⟨?_, ih (idx + 1)⟩
      intro hmem
      rcases List.mem_map.mp hmem with ⟨x, hx, hfx⟩
      rcases runLoop_filename_ge download domain rest (idx + 1) x hx with ⟨m, fmt, hm, hf⟩
      rw [hf] at hfx
      exact logoFilename_inj domain fmt (detectImageFormat c.url resp.contentType)
        (show m ≠ idx by omega) hfx

/-- C7: in one run of the download loop the n-th successful save (1-based)
gets the filename `{domain}-logo.{format}` when n = 1 and
`{domain}-logo-{n}.{format}` when n > 1 — the ordinal advancing only on
successful saves, since skipped candidates leave the index untouched — and
the filenames recorded in one run are pairwise distinct. -/
theorem C7_filenames (download : String → Option Resp) (domain : String)
    (cs : List Candidate) :
    (∀ (n : Nat) (a : Artifact), (runLoop download domain cs 1).get? n = some a →
        a.filename = logoFilename domain (n + 1) a.format)
    ∧ ((runLoop download domain cs 1).map Artifact.filename).Nodup := by
  constructor
  · intro n a h
    have := runLoop_get? download domain cs 1 n a h
    rwa [Nat.add_comm 1 n] at this
  · exact runLoop_filenames_nodup download domain cs 1

/-- Witness for C7: a concrete three-candidate run whose middle candidate
fails; the first success is recorded under the ordinal-1 filename. -/
theorem C7_filenames_witness :
    (runLoop
        (fun u => if u = "https://s.com/b.gif" then none else some ⟨some "image/png"⟩)
        "s.com"
        [⟨"https://s.com/a.png", 1, "meta", none⟩,
         ⟨"https://s.com/b.gif", 2, "link", none⟩,
         ⟨"https://s.com/c.ico", 10, "common-path", none⟩] 1).get? 0
      = some ⟨"https://s.com/a.png", "s.com-logo.png", "png", "meta", some "image/png"⟩
    ∧ ("s.com-logo.png" : String) = logoFilename "s.com" 1 "png" := by
  refine ⟨by decide, ?_⟩
  exact (C7_filenames
    (fun u => if u = "https://s.com/b.gif" then none else some ⟨some "image/png"⟩)
    "s.com"
    [⟨"https://s.com/a.png", 1, "meta", none⟩,
     ⟨"https://s.com/b.gif", 2, "link", none⟩,
     ⟨"https://s.com/c.ico", 10, "common-path", none⟩]).1 0
    ⟨"https://s.com/a.png", "s.com-logo.png", "png", "meta", some "image/png"⟩ (by decide)

/-- Embedding of JavaScript `s.replace(pat, "")` for a non-empty string
pattern: removes the first occurrence of `pat`, if any. -/
def replaceFirstDrop (pat : List Char) : List Char → List Char
  | [] => []
  | c :: rest =>
    if pat.isPrefixOf (c :: rest) then (c :: rest).drop pat.length
    else c :: replaceFirstDrop pat rest

/-- The domain computation `hostname.replace("www.", "")` (src/index.js:15). -/
def stripWww (hostname : String) : String :=
  ⟨replaceFirstDrop "www.".data hostname.data⟩

/-- The per-site result record (src/index.js:245-257 and 312-316).  Fields
absent from the JavaScript failure record are modelled as `0`, `[]` and
`none`; the back-compat primary fields mirror `logos.head` and are not
modelled separately. -/
structure ExtractionResult where
  success : Bool
  domain : String
  count : Nat
  logos : List Artifact
  error : Option String
deriving DecidableEq, Repr

/-- The two fixed provider fallback candidates (src/index.js:206-217 and
264-275): url, format, source. -/
def providerList (domain : String) : List (String × String × String) :=
  [("https://www.google.com/s2/favicons?sz=256&domain_url=https://" ++ domain,
    "png", "google-favicons"),
   ("https://icons.duckduckgo.com/ip3/" ++ domain ++ ".ico",
    "ico", "duckduckgo-favicons")]

/-- One pass over the provider candidates (src/index.js:218-235 and 277-295):
each provider is attempted independently with the given referer; failures
are swallowed. -/
def runProviders (env : Env) (domain referer : String) : List Artifact :=
  (providerList domain).filterMap fun prov =>
    match env.download prov.1 referer with
    | none => none
    | some resp =>
      some { url := prov.1,
             filename := domain ++ "-logo-fallback." ++ prov.2.1,
             format := prov.2.1,
             source := prov.2.2,
             contentType := resp.contentType }

/-- Artifacts saved by the primary download loop of a run. -/
def loopSaved (env : Env) : List Artifact :=
  runLoop (fun u => env.download u env.pageUrl) (stripWww env.hostname) (foundLogos env) 1

/-- Artifacts saved by the normal-path provider fallback (referer is the
site origin, src/index.js:220). -/
def normalFallbackSaved (env : Env) : List Artifact :=
  runProviders env (stripWww env.hostname) env.baseUrl

/-- Artifacts saved by the top-level-catch provider fallback (referer is
`https://` ++ domain, src/index.js:279-282). -/
def handlerFallbackSaved (env : Env) : List Artifact :=
  runProviders env (stripWww env.hostname) ("https://" ++ stripWww env.hostname)

/-- The main body of `extractLogo` (src/index.js:10-257): the download loop,
the zero-saved provider fallback, and the `throw` when still nothing is
saved.  The second component records whether the normal-path provider
fallback ran.  Directory creation and the page/manifest fetches never throw
past their own handlers in the model (their failures are part of `Env`). -/
def extractMain (env : Env) : Except String (ExtractionResult × Bool) :=
  let domain := stripWww env.hostname
  let saved :=
    if (loopSaved env).isEmpty then loopSaved env ++ normalFallbackSaved env
    else loopSaved env
  if saved.isEmpty then Except.error "Failed to download any logos"
  else
    Except.ok
      ({ success := true, domain := domain, count := saved.length,
         logos := saved, error := none },
       (loopSaved env).isEmpty)

/-- The top-level catch handler of `extractLogo` (src/index.js:258-317):
one more independent provider pass, then a success or failure record. -/
def extractCatch (env : Env) (msg : String) : ExtractionResult :=
  let domain := stripWww env.hostname
  let saved := handlerFallbackSaved env
  if saved.isEmpty then
    { success := false, domain := domain, count := 0, logos := [], error := some msg }
  else
    { success := true, domain := domain, count := saved.length, logos := saved, error := none }

/-- `extractLogo`, whole: the body's only uncaught throw (the zero-saved
`Error`) is intercepted by the top-level handler, so the function always
returns a result record — no exception escapes to the caller.  The two
booleans record whether the normal-path fallback and the handler fallback
ran. -/
def extractLogo (env : Env) : ExtractionResult × Bool × Bool :=
  match extractMain env with
  | Except.ok (r, fb) => (r, fb, false)
  | Except.error msg => (extractCatch env msg, true, true)

/-- C2: the result record has success true iff at least one artifact was
saved (by the primary loop, the normal-path provider fallback, or the
handler provider fallback); with zero artifacts saved the result has
success false, the www-stripped domain and an error description (and, the
model being a total function, no exception reaches the caller); and the
normal-path provider fallback runs exactly when the primary loop saved
zero artifacts. -/
theorem C2_result_semantics (env : Env) :
    ((extractLogo env).1.success = true ↔ (extractLogo env).1.logos ≠ [])
    ∧ ((extractLogo env).1.logos
        = if loopSaved env ≠ [] then loopSaved env
          else if normalFallbackSaved env ≠ [] then normalFallbackSaved env
          else handlerFallbackSaved env)
    ∧ ((extractLogo env).1.success = false →
        (extractLogo env).1.domain = stripWww env.hostname
        ∧ (extractLogo env).1.error = some "Failed to download any logos")
    ∧ ((extractLogo env).2.1 = true ↔ loopSaved env = [])
    ∧ ((extractLogo env).2.2 = true ↔ loopSaved env = [] ∧ normalFallbackSaved env = []) := by
  by_cases hL : loopSaved env = []
  · by_cases hP1 : normalFallbackSaved env = []
    · by_cases hP2 : handlerFallbackSaved env = []
      · simp [extractLogo, extractMain, extractCatch, hL, hP1, hP2]
      · simp [extractLogo, extractMain, extractCatch, hL, hP1, hP2]
    · simp [extractLogo, extractMain, extractCatch, hL, hP1]
  · simp [extractLogo, extractMain, extractCatch, hL]

/-- A concrete run for the C5 witness: the page yields one og:image meta
candidate and one .logo img candidate. -/
def exEnvC5 : Env :=
  { pageUrl := "https://site.com/page",
    baseUrl := "https://site.com",
    hostname := "site.com",
    page := some
      { metaContents := ["https://cdn.site.com/og.png"],
        linkIcons := [],
        headerImgs := [],
        logoSectionImgs := ["/assets/logo2.png"],
        altLogoImgs := [],
        manifestHref := none,
        manifestIcons := none },
    download := fun _ _ => none }

/-- A concrete run for the C2 witness: page fetch fails and every download
fails, so the run ends in the failure record. -/
def envFailAll : Env :=
  { pageUrl := "https://www.ex.com/",
    baseUrl := "https://www.ex.com",
    hostname := "www.ex.com",
    page := none,
    download := fun _ _ => none }

theorem runLoop_download_none (domain : String) :
    ∀ (cs : List Candidate) (idx : Nat), runLoop (fun _ => none) domain cs idx = [] := by
  intro cs
  induction cs with
  | nil => intro idx; rfl
  | cons c rest ih =>
    intro idx
    simpa [runLoop] using ih idx

/-- C1 counterexample: on the URL "https://x.com/LOGO" the code returns
false (its "logo"/"icon" tests are case-sensitive), while the claim's
fully case-insensitive condition holds, so the claimed equivalence fails. -/
instance : DecidablePred validPerSpecCI := fun u => by
  unfold validPerSpecCI
  infer_instance

theorem C1_counterexample :
    ¬ (isValidImageUrl "https://x.com/LOGO" = true ↔ validPerSpecCI "https://x.com/LOGO") := by
  decide

/-- C1 (amended): `isValidImageUrl` returns true iff the lowercased URL
contains one of the fixed image extensions, or the raw URL contains the
substring "logo" or "icon" (these two tests being case-sensitive). -/
theorem C1_isValidImageUrl_amended (url : String) :
    isValidImageUrl url = true ↔ validAmended url := by
  unfold isValidImageUrl validAmended
  simp [List.any_eq_true, or_assoc]

theorem detectImageFormat_eq_spec (url : String) (contentType : Option String) :
    detectImageFormat url contentType = detectPerSpec url contentType := by
  match contentType with
  | none => simpa [detectImageFormat, detectPerSpec] using detectFromUrl_eq_spec url
  | some ct =>
    by_cases hct : ct = ""
    · subst hct
      simpa [detectImageFormat, detectPerSpec] using detectFromUrl_eq_spec url
    · cases h : typeMap.lookup (jsToLower ct) with
      | some f => simp [detectImageFormat, detectPerSpec, hct, h]
      | none =>
        simpa [detectImageFormat, detectPerSpec, hct, h] using detectFromUrl_eq_spec url

theorem detectImageFormatJs_format (url : String) (contentType : Option String)
    (h : ∀ c, contentType = some c → jsToLower c ∉ objectProtoProps) :
    detectImageFormatJs url contentType
      = DetectResult.format (detectImageFormat url contentType) := by
  match contentType with
  | none => rfl
  | some c =>
    by_cases hc : c = ""
    · subst hc
      rfl
    · have hnp := h c rfl
      simp only [detectImageFormatJs, detectImageFormat, jsObjectGet, if_neg hc]
      cases hl : typeMap.lookup (jsToLower c) with
      | some f => simp
      | none => simp [hnp]

/-- C3 counterexample: with content-type "constructor" the lookup
`typeMap[contentType.toLowerCase()]` hits the inherited, truthy
`Object.prototype.constructor`, so the program returns that non-string
value instead of falling through to URL detection (which the claim says
would give "png" for a ".png" URL). -/
theorem C3_counterexample :
    ¬ (detectImageFormatJs "https://x.com/a.png" (some "constructor")
        = DetectResult.format (detectPerSpec "https://x.com/a.png" (some "constructor"))) := by
  decide

/-- C3 (amended): for every URL and optional content-type whose lowercased
form is not an `Object.prototype` property name, `detectImageFormat`
resolves the format by exact case-insensitive lookup in the fixed map, then
by substring search on the lowercased URL in the fixed order svg, png,
jpg/jpeg, gif, webp, ico, bmp, tiff/tif, and otherwise returns "png" —
content-type taking precedence, so a ".png" URL with content-type
"image/webp" yields "webp".  When the lowercased content-type is an
inherited property name (reachable: "constructor", "__proto__") and misses
the own keys, the function instead returns that inherited non-string
value. -/
theorem C3_detect_format_amended :
    (∀ (url : String) (contentType : Option String),
        (∀ c, contentType = some c → jsToLower c ∉ objectProtoProps) →
        detectImageFormatJs url contentType
          = DetectResult.format (detectPerSpec url contentType))
    ∧ (∀ (url c : String), jsToLower c ∈ objectProtoProps →
        detectImageFormatJs url (some c) = DetectResult.protoValue (jsToLower c))
    ∧ detectImageFormatJs "https://x.com/a.png" (some "image/webp")
        = DetectResult.format "webp" := by
  refine ⟨?_, ?_, by decide⟩
  · intro url contentType h
    rw [detectImageFormatJs_format url contentType h, detectImageFormat_eq_spec]
  · intro url c hm
    have hc : c ≠ "" := by
      intro he
      subst he
      exact absurd hm (by decide)
    have hlook : typeMap.lookup (jsToLower c) = none := by
      have hall : ∀ k ∈ objectProtoProps, typeMap.lookup k = none := by decide
      exact hall _ hm
    simp only [detectImageFormatJs, jsObjectGet, if_neg hc, hlook]
    rw [if_pos hm]

/-- Witness for C3: an ordinary content-type resolves per the spec's chain,
and "CONSTRUCTOR" (lowercased to the inherited name) yields the inherited
value. -/
theorem C3_detect_format_amended_witness :
    detectImageFormatJs "https://x.com/a.gif" (some "image/png")
        = DetectResult.format (detectPerSpec "https://x.com/a.gif" (some "image/png"))
    ∧ detectImageFormatJs "https://x.com/a.png" (some "CONSTRUCTOR")
        = DetectResult.protoValue "constructor" := by
  constructor
  · exact C3_detect_format_amended.1 "https://x.com/a.gif" (some "image/png")
      (fun c hc => by injection hc with h; rw [← h]; decide)
  · have h := C3_detect_format_amended.2.1 "https://x.com/a.png" "CONSTRUCTOR" (by decide)
    simpa using h

/-- C4: `normalizeUrl` applies its rules in order: a reference starting with
"//" gets "https:" prefixed, one starting with "/" gets the origin
prefixed, one starting with "http" is returned as-is, any other non-empty
reference becomes origin ++ "/" ++ reference, and an empty or null/undefined
reference yields null. -/
theorem C4_normalizeUrl_cases (u b : String) :
    normalizeUrl none b = none
    ∧ normalizeUrl (some "") b = none
    ∧ (jsStartsWith u "//" = true → normalizeUrl (some u) b = some ("https:" ++ u))
    ∧ (jsStartsWith u "//" = false → jsStartsWith u "/" = true →
        normalizeUrl (some u) b = some (b ++ u))
    ∧ (jsStartsWith u "/" = false → jsStartsWith u "http" = true →
        normalizeUrl (some u) b = some u)
    ∧ (u ≠ "" → jsStartsWith u "/" = false → jsStartsWith u "http" = false →
        normalizeUrl (some u) b = some (b ++ "/" ++ u)) := by
  have hne : jsStartsWith u "//" = true → u ≠ "" := by
    intro h he
    subst he
    simp [jsStartsWith, List.isPrefixOf] at h
  have hss : jsStartsWith u "//" = true → jsStartsWith u "/" = true := by
    intro h
    simp only [jsStartsWith] at h ⊢
    cases u with
    | mk data =>
      match data with
      | [] => simp [List.isPrefixOf] at h
      | c :: rest =>
        simp [List.isPrefixOf] at h ⊢
        exact h.1
  have hne2 : jsStartsWith u "http" = true → u ≠ "" := by
    intro h he
    subst he
    simp [jsStartsWith, List.isPrefixOf] at h
  refine ⟨rfl, by simp [normalizeUrl], ?_, ?_, ?_, ?_⟩
  · intro h
    simp [normalizeUrl, hne h, h]
  · intro h1 h2
    have : u ≠ "" := by
      intro he
      subst he
      simp [jsStartsWith, List.isPrefixOf] at h2
    simp [normalizeUrl, this, h1, h2]
  · intro h1 h2
    have h0 : jsStartsWith u "//" = false := by
      cases h : jsStartsWith u "//" with
      | false => rfl
      | true => rw [hss h] at h1; exact absurd h1 (by simp)
    simp [normalizeUrl, hne2 h2, h0, h1, h2]
  · intro h0 h1 h2
    have h3 : jsStartsWith u "//" = false := by
      cases h : jsStartsWith u "//" with
      | false => rfl
      | true => rw [hss h] at h1; exact absurd h1 (by simp)
    simp [normalizeUrl, h0, h1, h2, h3]

/-- Witness for C4 at the spec's own concrete examples. -/
theorem C4_normalizeUrl_cases_witness :
    normalizeUrl (some "//cdn.x/a.png") "https://site.com" = some "https://cdn.x/a.png"
    ∧ normalizeUrl (some "/a.png") "https://site.com" = some "https://site.com/a.png"
    ∧ normalizeUrl (some "https://other.com/a.png") "https://site.com"
        = some "https://other.com/a.png"
    ∧ normalizeUrl (some "a.png") "https://site.com" = some "https://site.com/a.png"
    ∧ normalizeUrl none "https://site.com" = none := by
  refine ⟨?_, ?_, ?_, ?_, ?_⟩
  · have h := (C4_normalizeUrl_cases "//cdn.x/a.png" "https://site.com").2.2.1 (by decide)
    simpa using h
  · exact (C4_normalizeUrl_cases "/a.png" "https://site.com").2.2.2.1 (by decide) (by decide)
  · exact (C4_normalizeUrl_cases "https://other.com/a.png" "https://site.com").2.2.2.2.1
      (by decide) (by decide)
  · exact (C4_normalizeUrl_cases "a.png" "https://site.com").2.2.2.2.2
      (by decide) (by decide) (by decide)
  · exact (C4_normalizeUrl_cases "x" "https://site.com").1

theorem detectImageFormat_range (url : String) (contentType : Option String) :
    detectImageFormat url contentType
        ∈ (["svg", "png", "jpg", "gif", "webp", "ico", "bmp", "tiff"] : List String)
    ∧ detectImageFormat url contentType ≠ "jpeg" := by
  have hurl : ∀ v : String, detectFromUrl v
      ∈ (["svg", "png", "jpg", "gif", "webp", "ico", "bmp", "tiff"] : List String) := by
    intro v
    unfold detectFromUrl
    split_ifs <;> decide
  have hmap : ∀ k v, typeMap.lookup k = some v →
      v ∈ (["svg", "png", "jpg", "gif", "webp", "ico", "bmp", "tiff"] : List String) := by
    intro k v h
    have hm := lookup_snd_mem typeMap k v h
    have hsub : ∀ x ∈ typeMap.map Prod.snd,
        x ∈ (["svg", "png", "jpg", "gif", "webp", "ico", "bmp", "tiff"] : List String) := by
      decide
    exact hsub v hm
  have hmem : detectImageFormat url contentType
      ∈ (["svg", "png", "jpg", "gif", "webp", "ico", "bmp", "tiff"] : List String) := by
    unfold detectImageFormat
    match contentType with
    | none => exact hurl url
    | some ct =>
      by_cases hct : ct = ""
      · simp only [hct, if_pos rfl]
        exact hurl url
      · simp only [if_neg hct]
        cases h : typeMap.lookup (jsToLower ct) with
        | some f => exact hmap _ f h
        | none => exact hurl url
  refine ⟨hmem, ?_⟩
  intro hcontra
  rw [hcontra] at hmem
  simp at hmem

/-- C10 counterexample: with content-type "constructor" the lookup hits the
inherited truthy `Object.prototype.constructor`, so the program returns a
non-string value outside the canonical format set. -/
theorem C10_counterexample :
    detectImageFormatJs "https://x.com/a.png" (some "constructor")
        = DetectResult.protoValue "constructor"
    ∧ DetectResult.protoValue "constructor"
        ∉ ((["svg", "png", "jpg", "gif", "webp", "ico", "bmp", "tiff"] : List String).map
            DetectResult.format) := by
  decide

/-- C10 (amended): for every URL and content-type input whose lowercased
content-type is not an `Object.prototype` property name, `detectImageFormat`
returns one of the eight canonical format tags and never "jpeg" (both
`image/jpeg` and the `.jpg`/`.jpeg` URL extensions map to "jpg"), so for
such inputs the "jpeg" arm of the re-encode switch can never be selected by
a detected format; for a lowercased content-type that is such a name
(reachable: "constructor", "__proto__") the function instead returns the
inherited non-string value. -/
theorem C10_detect_range_amended (url : String) (contentType : Option String)
    (h : ∀ c, contentType = some c → jsToLower c ∉ objectProtoProps) :
    detectImageFormatJs url contentType
        ∈ ((["svg", "png", "jpg", "gif", "webp", "ico", "bmp", "tiff"] : List String).map
            DetectResult.format)
    ∧ detectImageFormatJs url contentType ≠ DetectResult.format "jpeg" := by
  rw [detectImageFormatJs_format url contentType h]
  have hr := detectImageFormat_range url contentType
  constructor
  · exact List.mem_map.mpr ⟨detectImageFormat url contentType, hr.1, rfl⟩
  · intro hcontra
    refine hr.2 ?_
    injection hcontra

/-- Witness for C10 at an absent content-type and an unknown URL (the
default "png" branch). -/
theorem C10_detect_range_amended_witness :
    detectImageFormatJs "https://x.com/data" none
        ∈ ((["svg", "png", "jpg", "gif", "webp", "ico", "bmp", "tiff"] : List String).map
            DetectResult.format)
    ∧ detectImageFormatJs "https://x.com/data" none ≠ DetectResult.format "jpeg" :=
  C10_detect_range_amended "https://x.com/data" none (fun _ hc => nomatch hc)

/-- Embedding of `downloadWithFallback` (src/index.js:455-491) against an
abstract HTTP oracle.  `att u r` is one `axios.get` of `u` with referer
header source `r` (`E` the abstract error type); `origin r` models
`new URL(r).origin`, whose failure (`none`) makes the code fall back to the
raw referer; `swap` models `trySwapProtocol`, which returns `none` for a
non-http(s) or unparseable URL and never throws.  Besides the result the
model returns the attempts actually performed, in order. -/
def downloadWithFallback {E : Type} (att : String → String → Except E Resp)
    (origin : String → Option String) (swap : String → Option String)
    (resourceUrl referer : String) :
    Except E Resp × List (String × String) :=
  let originReferer := (origin referer).getD referer
  match att resourceUrl referer with
  | Except.ok r => (Except.ok r, [(resourceUrl, referer)])
  | Except.error _ =>
    match att resourceUrl originReferer with
    | Except.ok r => (Except.ok r, [(resourceUrl, referer), (resourceUrl, originReferer)])
    | Except.error e2 =>
      match swap resourceUrl with
      | none => (Except.error e2, [(resourceUrl, referer), (resourceUrl, originReferer)])
      | some swapped =>
        match att swapped originReferer with
        | Except.ok r =>
          (Except.ok r,
           [(resourceUrl, referer), (resourceUrl, originReferer), (swapped, originReferer)])
        | Except.error _ =>
          (Except.error e2,
           [(resourceUrl, referer), (resourceUrl, originReferer), (swapped, originReferer)])

/-- C8: the resource fetch performs at most three attempts, in order —
attempt 1 with the full referring-page URL as referer, attempt 2 with the
referring page's origin only, attempt 3 with the protocol swapped on the
resource URL and the origin-only referer — returning the first success;
when no attempt succeeds (or attempt 3 is inapplicable because the protocol
cannot be swapped) the raised error is attempt 2's, never attempt 3's. -/
theorem C8_download_fallback {E : Type} (att : String → String → Except E Resp)
    (origin : String → Option String) (swap : String → Option String)
    (u referer : String) :
    (downloadWithFallback att origin swap u referer).2.length ≤ 3
    ∧ (∀ r, att u referer = Except.ok r →
        downloadWithFallback att origin swap u referer = (Except.ok r, [(u, referer)]))
    ∧ (∀ e1 r, att u referer = Except.error e1 →
        att u ((origin referer).getD referer) = Except.ok r →
        downloadWithFallback att origin swap u referer
          = (Except.ok r, [(u, referer), (u, (origin referer).getD referer)]))
    ∧ (∀ e1 e2 s r, att u referer = Except.error e1 →
        att u ((origin referer).getD referer) = Except.error e2 →
        swap u = some s → att s ((origin referer).getD referer) = Except.ok r →
        downloadWithFallback att origin swap u referer
          = (Except.ok r,
             [(u, referer), (u, (origin referer).getD referer),
              (s, (origin referer).getD referer)]))
    ∧ (∀ e1 e2, att u referer = Except.error e1 →
        att u ((origin referer).getD referer) = Except.error e2 →
        swap u = none →
        downloadWithFallback att origin swap u referer
          = (Except.error e2, [(u, referer), (u, (origin referer).getD referer)]))
    ∧ (∀ e1 e2 s e3, att u referer = Except.error e1 →
        att u ((origin referer).getD referer) = Except.error e2 →
        swap u = some s → att s ((origin referer).getD referer) = Except.error e3 →
        downloadWithFallback att origin swap u referer
          = (Except.error e2,
             [(u, referer), (u, (origin referer).getD referer),
              (s, (origin referer).getD referer)])) := by
  refine ⟨?_, ?_, ?_, ?_, ?_, ?_⟩
  · simp only [downloadWithFallback]
    cases h1 : att u referer with
    | ok r => simp
    | error e1 =>
      cases h2 : att u ((origin referer).getD referer) with
      | ok r => simp [h2]
      | error e2 =>
        cases h3 : swap u with
        | none => simp [h2, h3]
        | some s =>
          cases h4 : att s ((origin referer).getD referer) with
          | ok r => simp [h2, h3, h4]
          | error e3 => simp [h2, h3, h4]
  · intro r h1
    simp [downloadWithFallback, h1]
  · intro e1 r h1 h2
    simp [downloadWithFallback, h1, h2]
  · intro e1 e2 s r h1 h2 hs h3
    simp [downloadWithFallback, h1, h2, hs, h3]
  · intro e1 e2 h1 h2 hs
    simp [downloadWithFallback, h1, h2, hs]
  · intro e1 e2 s e3 h1 h2 hs h3
    simp [downloadWithFallback, h1, h2, hs, h3]

/-- Witness for C8: a concrete oracle where every attempt fails; the error
raised is attempt 2's ("err2"), not attempt 3's. -/
theorem C8_download_fallback_witness :
    downloadWithFallback
        (fun u r =>
          if r = "https://a.com/page" then Except.error "err1"
          else if u = "http://a.com/x.png" then Except.error "err3"
          else Except.error "err2")
        (fun _ => some "https://a.com")
        (fun _ => some "http://a.com/x.png")
        "https://a.com/x.png" "https://a.com/page"
      = (Except.error "err2",
         [("https://a.com/x.png", "https://a.com/page"),
          ("https://a.com/x.png", "https://a.com"),
          ("http://a.com/x.png", "https://a.com")]) :=
  (C8_download_fallback
      (fun u r =>
        if r = "https://a.com/page" then Except.error "err1"
        else if u = "http://a.com/x.png" then Except.error "err3"
        else Except.error "err2")
      (fun _ => some "https://a.com")
      (fun _ => some "http://a.com/x.png")
      "https://a.com/x.png" "https://a.com/page").2.2.2.2.2
    "err1" "err2" "http://a.com/x.png" "err3" rfl rfl rfl rfl

/-- The image-codec oracle for one candidate: `meta = none` models a decode
(`sharp(...).metadata()`) that throws; otherwise it carries sharp's
optional width and height.  `encodeOk = false` models a failing
re-encode/write (`toFile` throwing). -/
structure CodecOracle where
  meta : Option (Option Nat × Option Nat)
  encodeOk : Bool
deriving DecidableEq, Repr

/-- What gets written for one fetched candidate: the original bytes
verbatim, or a re-encode with the named encoder and quality, `resized`
recording whether `resize(512, 512, fit inside, withoutEnlargement)` was
applied first. -/
inductive WriteAction where
  | verbatim : WriteAction
  | encoded (encoder : String) (quality : Option Nat) (resized : Bool) : WriteAction
deriving DecidableEq, Repr

/-- Embedding of the persist step of the download loop (src/index.js:151-188):
svg is written verbatim; optimizable formats go through sharp — resize only
when a reported dimension exceeds 512, then the format's encoder (quality 90
for jpeg/webp) — falling back to a verbatim write when sharp throws; every
other format is written verbatim.  The surrounding `runLoop` records the
artifact in `saved` regardless of which branch ran, since the codec
fallback is inside the per-candidate try. -/
def persistStep (format : String) (codec : CodecOracle) : WriteAction :=
  if format = "svg" then WriteAction.verbatim
  else if shouldOptimize format then
    match codec.meta with
    | none => WriteAction.verbatim
    | some (w, h) =>
      let resized := (w.any fun x => x > 512) || (h.any fun x => x > 512)
      if format = "png" then
        if codec.encodeOk then WriteAction.encoded "png" none resized
        else WriteAction.verbatim
      else if format = "jpg" ∨ format = "jpeg" then
        if codec.encodeOk then WriteAction.encoded "jpeg" (some 90) resized
        else WriteAction.verbatim
      else if format = "webp" then
        if codec.encodeOk then WriteAction.encoded "webp" (some 90) resized
        else WriteAction.verbatim
      else WriteAction.verbatim
  else WriteAction.verbatim

/-- C9: a fetched candidate of detected format png/jpg/jpeg/webp is decoded,
resized (with fit-inside-512, no enlargement) exactly when a decoded
dimension exceeds 512, and re-encoded in its own format (png encoder for
png, quality-90 jpeg for jpg/jpeg, quality-90 webp for webp); any codec
failure falls back to writing the fetched bytes verbatim (the candidate
still being recorded as saved, since `runLoop`'s artifact list does not
depend on the codec outcome); svg/ico/gif/bmp/tiff are written verbatim. -/
theorem C9_persist_step (format : String) (codec : CodecOracle) :
    (format ∈ (["png", "jpg", "jpeg", "webp"] : List String) →
      (codec.meta = none → persistStep format codec = WriteAction.verbatim)
      ∧ (∀ w h, codec.meta = some (w, h) → codec.encodeOk = false →
          persistStep format codec = WriteAction.verbatim)
      ∧ (∀ w h, codec.meta = some (w, h) → codec.encodeOk = true →
          persistStep format codec = WriteAction.encoded
            (if format = "png" then "png" else if format = "webp" then "webp" else "jpeg")
            (if format = "png" then none else some 90)
            ((w.any fun x => x > 512) || (h.any fun x => x > 512))))
    ∧ (format ∈ (["svg", "ico", "gif", "bmp", "tiff"] : List String) →
        persistStep format codec = WriteAction.verbatim) := by
  constructor
  · intro hf
    simp only [List.mem_cons, List.not_mem_nil, or_false] at hf
    refine ⟨?_, ?_, ?_⟩
    · intro hm
      rcases hf with h | h | h | h <;> subst h <;> simp [persistStep, shouldOptimize, hm]
    · intro w h hm he
      rcases hf with hh | hh | hh | hh <;> subst hh <;>
        simp [persistStep, shouldOptimize, hm, he]
    · intro w h hm he
      rcases hf with hh | hh | hh | hh <;> subst hh <;>
        simp [persistStep, shouldOptimize, hm, he]
  · intro hf
    simp only [List.mem_cons, List.not_mem_nil, or_false] at hf
    rcases hf with h | h | h | h | h <;> subst h <;> simp [persistStep, shouldOptimize]

/-- Witness for C9: a 1024-wide png is resized and re-encoded as png; a gif
is written verbatim. -/
theorem C9_persist_step_witness :
    persistStep "png" ⟨some (some 1024, some 768), true⟩
      = WriteAction.encoded "png" none true
    ∧ persistStep "gif" ⟨some (some 1024, some 768), true⟩ = WriteAction.verbatim := by
  constructor
  · have h := ((C9_persist_step "png" ⟨some (some 1024, some 768), true⟩).1
      (by decide)).2.2 (some 1024) (some 768) rfl rfl
    simpa using h
  · exact (C9_persist_step "gif" ⟨some (some 1024, some 768), true⟩).2 (by decide)

/-- Witness for C5: in the concrete run the meta candidate precedes the
logo-section candidate in the sorted list. -/
theorem C5_sorted_stable_witness :
    exEnvC5.baseUrl = "https://site.com"
    ∧ [(⟨"https://cdn.site.com/og.png", 1, "meta", none⟩ : Candidate),
       ⟨"https://site.com/assets/logo2.png", 7, "logo-section", none⟩].Sublist
        (foundLogos exEnvC5) :=
  ⟨rfl, (C5_sorted_stable exEnvC5).2.2 exEnvC5 rfl rfl⟩

/-- Witness for C2: with every fetch failing, the run returns the failure
record with the www-stripped domain and the error message. -/
theorem C2_result_semantics_witness :
    (extractLogo envFailAll).1.success = false
    ∧ (extractLogo envFailAll).1.domain = "ex.com"
    ∧ (extractLogo envFailAll).1.error = some "Failed to download any logos" := by
  have h := C2_result_semantics envFailAll
  have hL : loopSaved envFailAll = [] :=
    runLoop_download_none (stripWww envFailAll.hostname) (foundLogos envFailAll) 1
  have hP1 : normalFallbackSaved envFailAll = [] := rfl
  have hP2 : handlerFallbackSaved envFailAll = [] := rfl
  have hlogos : (extractLogo envFailAll).1.logos = [] := by
    rw [h.2.1, hL, hP1, hP2]
    simp
  have hsucc : (extractLogo envFailAll).1.success = false := by
    rcases Bool.eq_false_or_eq_true (extractLogo envFailAll).1.success with hs | hs
    · exact absurd hlogos (h.1.mp hs)
    · exact hs
  have hde := h.2.2.1 hsucc
  exact ⟨hsucc, by rw [hde.1]; rfl, hde.2⟩

end SimpleLogo
